import Mathlib

/-!
Verification of the NFC building registry library.

The decoder `parseNDEFBuildingType` and the registry operations
(`addBuilding`, `removeBuilding`, the dispatch phase of `scanForCards`)
are embedded shallowly.  Bytes are modelled as `Nat`; every raw indexed
read of the input buffer goes through `List.getElem?`, so that an
out-of-bounds access surfaces as `none` (the `Option` layer is the
crash monad).  The loops of the C++ source are modelled with an
explicit fuel argument that decreases once per iteration; fuel
exhaustion also yields `none`, and the safety theorems show that fuel
equal to the buffer length never runs out, because every iteration of
every loop strictly advances its cursor.
-/

namespace NFCReg

/-- The bound check `within` from the source: `idx < data.size()`. -/
def within (data : List Nat) (idx : Nat) : Prop := idx < data.length

instance (data : List Nat) (idx : Nat) : Decidable (within data idx) :=
  inferInstanceAs (Decidable (idx < data.length))

/-!
Inner record loop of `parseNDEFBuildingType` (the `while (p < msgEnd)`
loop).  The value `some (Sum.inl r)` means the C++ function exits the
whole parse (with `r = some v` for `return v`, and `r = none` for a
`break` that falls through to the fallback heuristic); `some (Sum.inr q)`
means the record loop continues at cursor `q`; `none` means an
out-of-bounds read (never happens, proved below).
-/

/-- Tail of one record iteration, after the payload-length field and the
optional ID-length byte have been read: the bounds checks on the type,
ID and payload fields, the record-type test against the marker byte 66
(the character B), and the payload skip with the message-end bit test. -/
def afterId (data : List Nat) (msgEnd header typeLen payloadLen idLen c : Nat) :
    Option (Option Nat ⊕ Nat) :=
  if c + typeLen > msgEnd then some (Sum.inl none)
  else if c + typeLen + idLen > msgEnd then some (Sum.inl none)
  else if c + typeLen + idLen + payloadLen > msgEnd then some (Sum.inl none)
  else if typeLen = 1 then
    match data[c]? with
    | none => none
    | some tb =>
      if tb = 66 then
        if 1 ≤ payloadLen then
          match data[c + typeLen + idLen]? with
          | none => none
          | some v => some (Sum.inl (some v))
        else some (Sum.inl (some 0))
      else if header &&& 64 ≠ 0 then some (Sum.inl none)
      else some (Sum.inr (c + typeLen + idLen + payloadLen))
  else if header &&& 64 ≠ 0 then some (Sum.inl none)
  else some (Sum.inr (c + typeLen + idLen + payloadLen))

/-- The optional ID-length byte of one record iteration (the `hasId`
branch of the source), followed by `afterId`. -/
def idStage (data : List Nat) (msgEnd header typeLen payloadLen c : Nat) :
    Option (Option Nat ⊕ Nat) :=
  if header &&& 8 ≠ 0 then
    if within data c then
      match data[c]? with
      | none => none
      | some idLen => afterId data msgEnd header typeLen payloadLen idLen (c + 1)
    else some (Sum.inl none)
  else afterId data msgEnd header typeLen payloadLen 0 c

/-- The record loop `while (p < msgEnd)` of the source.  Reads the header
byte, the type length, and the payload length (one byte for a short
record, four big-endian bytes otherwise), then runs `idStage`. -/
def recLoopF (data : List Nat) : Nat → Nat → Nat → Option (Option Nat)
  | 0, msgEnd, p => if p < msgEnd then none else some none
  | fuel + 1, msgEnd, p =>
    if p < msgEnd then
      if within data p then
        match data[p]? with
        | none => none
        | some header =>
          if within data (p + 1) then
            match data[p + 1]? with
            | none => none
            | some typeLen =>
              if header &&& 16 ≠ 0 then
                if within data (p + 2) then
                  match data[p + 2]? with
                  | none => none
                  | some payloadLen =>
                    match idStage data msgEnd header typeLen payloadLen (p + 3) with
                    | none => none
                    | some (Sum.inl r) => some r
                    | some (Sum.inr q) => recLoopF data fuel msgEnd q
                else some none
              else
                if p + 2 + 4 > msgEnd then some none
                else
                  match data[p + 2]?, data[p + 3]?, data[p + 4]?, data[p + 5]? with
                  | some b0, some b1, some b2, some b3 =>
                    match idStage data msgEnd header typeLen
                        (16777216 * b0 + 65536 * b1 + 256 * b2 + b3) (p + 6) with
                    | none => none
                    | some (Sum.inl r) => some r
                    | some (Sum.inr q) => recLoopF data fuel msgEnd q
                  | _, _, _, _ => none
          else some none
      else some none
    else some none

/-- The NDEF message TLV body (type 3) of the source: computes the
message start, rejects a start past the buffer with an immediate
`return 0`, clamps the message end to the buffer length, and runs the
record loop.  `lenFieldBytes` is 1 for the short length form and 3 for
the extended form. -/
def msgTLV (data : List Nat) (fuel i lenFieldBytes ndefLen : Nat) : Option (Option Nat) :=
  if i + 1 + lenFieldBytes ≥ data.length then some (some 0)
  else recLoopF data fuel (min (i + 1 + lenFieldBytes + ndefLen) data.length)
    (i + 1 + lenFieldBytes)

/-- The outer TLV loop `while (i < data.size())` of the source.  A NULL
TLV (type 0) advances by one byte; a terminator TLV (type 254) stops the
walk and falls through to the fallback scan; a message TLV (type 3) reads
a one-byte length, or two further big-endian bytes when that byte is 255,
and runs the record loop; any other TLV is skipped via its length byte.
`some (some v)` models a `return v` from the function body, `some none`
models falling through to the fallback scan. -/
def tlvLoopF (data : List Nat) : Nat → Nat → Option (Option Nat)
  | 0, i => if i < data.length then none else some none
  | fuel + 1, i =>
    if i < data.length then
      match data[i]? with
      | none => none
      | some tlvType =>
        if tlvType = 0 then tlvLoopF data fuel (i + 1)
        else if tlvType = 254 then some none
        else if tlvType = 3 then
          if within data (i + 1) then
            match data[i + 1]? with
            | none => none
            | some len1 =>
              if len1 = 255 then
                if within data (i + 3) then
                  match data[i + 2]?, data[i + 3]? with
                  | some hi, some lo => msgTLV data fuel i 3 (256 * hi + lo)
                  | _, _ => none
                else some (some 0)
              else msgTLV data fuel i 1 len1
          else some (some 0)
        else
          if within data (i + 1) then
            match data[i + 1]? with
            | none => none
            | some tlvLen =>
              if tlvLen = 255 then
                if within data (i + 3) then tlvLoopF data fuel (i + 4)
                else some none
              else tlvLoopF data fuel (i + 2 + tlvLen)
          else some none
    else some none

/-- The fallback heuristic of the source: scan for four consecutive bytes
whose first has the short-record bit 16 set, whose second (type length)
is 1, whose third (payload length) is at least 1 and whose fourth is the
marker byte 66, with at least one byte following; return that byte. -/
def fallbackScanF (data : List Nat) : Nat → Nat → Option Nat
  | 0, k => if k + 4 < data.length then none else some 0
  | fuel + 1, k =>
    if k + 4 < data.length then
      match data[k]? with
      | none => none
      | some flags =>
        if flags &&& 16 = 0 then fallbackScanF data fuel (k + 1)
        else
          match data[k + 1]?, data[k + 2]? with
          | some tLen, some pLen =>
            if tLen = 1 then
              if 1 ≤ pLen then
                match data[k + 3]? with
                | none => none
                | some tb =>
                  if tb = 66 then
                    match data[k + 4]? with
                    | none => none
                    | some v => some v
                  else fallbackScanF data fuel (k + 1)
              else fallbackScanF data fuel (k + 1)
            else fallbackScanF data fuel (k + 1)
          | _, _ => none
    else some 0

/-- The whole decoder with an explicit fuel bound for each loop. -/
def parseFuel (data : List Nat) (fuel : Nat) : Option Nat :=
  if data.length = 0 then some 0
  else
    match tlvLoopF data fuel 0 with
    | none => none
    | some (some v) => some v
    | some none => fallbackScanF data fuel 0

/-- The decoder `parseNDEFBuildingType` of the source, in the crash
monad: `none` would mean an out-of-bounds read or an unbounded loop,
and is proved impossible below. -/
def parseNDEFBuildingTypeM (data : List Nat) : Option Nat :=
  parseFuel data data.length

/-- The decoder as a plain function: the classification byte, or the
sentinel 0 when no record is found. -/
def parseNDEFBuildingType (data : List Nat) : Nat :=
  (parseNDEFBuildingTypeM data).getD 0

/-- Formalisation of the phrase "a complete matching record fits
entirely within the buffer": at position `h` the buffer holds an NDEF
record header, a type length equal to 1, a payload length field (one
byte when the short-record bit 16 of the header is set, four big-endian
bytes otherwise), an ID length byte when the ID bit 8 is set, the
marker type byte 66, and a payload of at least one byte, with the whole
record, payload included, inside the buffer bounds. -/
def completeRecordAt (data : List Nat) (h : Nat) : Bool :=
  let header := data.getD h 0
  let typeLen := data.getD (h + 1) 0
  let lenBytes : Nat := if header &&& 16 ≠ 0 then 1 else 4
  let payloadLen : Nat :=
    if header &&& 16 ≠ 0 then data.getD (h + 2) 0
    else 16777216 * data.getD (h + 2) 0 + 65536 * data.getD (h + 3) 0 +
      256 * data.getD (h + 4) 0 + data.getD (h + 5) 0
  let ilBytes : Nat := if header &&& 8 ≠ 0 then 1 else 0
  let idLen : Nat := if header &&& 8 ≠ 0 then data.getD (h + 2 + lenBytes) 0 else 0
  let typePos := h + 2 + lenBytes + ilBytes
  decide (typeLen = 1) && decide (data.getD typePos 0 = 66) &&
    decide (1 ≤ payloadLen) &&
    decide (typePos + typeLen + idLen + payloadLen ≤ data.length)

/-- A complete matching record fits entirely within the buffer at some
position. -/
def completeMatchingRecordFits (data : List Nat) : Prop :=
  ∃ h, h < data.length ∧ completeRecordAt data h = true

instance (data : List Nat) : Decidable (completeMatchingRecordFits data) :=
  inferInstanceAs (Decidable (∃ h, h < data.length ∧ completeRecordAt data h = true))

/-- The four-byte raw marker pattern the fallback heuristic scans for,
at position `k`, with at least one byte following it. -/
def patternAt (data : List Nat) (k : Nat) : Prop :=
  k + 4 < data.length ∧ data.getD k 0 &&& 16 ≠ 0 ∧ data.getD (k + 1) 0 = 1 ∧
    1 ≤ data.getD (k + 2) 0 ∧ data.getD (k + 3) 0 = 66

instance (data : List Nat) (k : Nat) : Decidable (patternAt data k) := by
  unfold patternAt
  infer_instance

/-- Continuation of the decoder after a message TLV has fixed the record
window `[msgStart, msgEnd)`: the record loop, then, if it falls through,
the fallback scan over the whole buffer. -/
def afterMsg (data : List Nat) (msgStart msgEnd : Nat) : Option Nat :=
  match recLoopF data data.length msgEnd msgStart with
  | none => none
  | some (some v) => some v
  | some none => fallbackScanF data data.length 0

/-!
The registry.  `std::map<String, BuildingCard>` is modelled as an
association list; timestamps (`millis()`) are natural numbers supplied
explicitly to each operation, and the reachability relation below
requires them to be monotone, which is the one property of `millis()`
the source relies on.
-/

/-- The card record of the source (`struct BuildingCard`). -/
structure BuildingCard where
  uid : String
  buildingType : Nat
  firstSeen : Nat
  lastSeen : Nat
  deriving DecidableEq, Repr

/-- The `buildingDatabase` member: a finite map from UID to card. -/
abbrev Db : Type := List (String × BuildingCard)

/-- Lookup by key, as `buildingDatabase.find(uid)`. -/
def dbFind : Db → String → Option BuildingCard
  | [], _ => none
  | e :: rest, uid => if e.1 = uid then some e.2 else dbFind rest uid

/-- Map subscript assignment `buildingDatabase[uid] = card`: replace the
entry when the key is present, otherwise append a new entry. -/
def dbInsert : Db → String → BuildingCard → Db
  | [], uid, c => [(uid, c)]
  | e :: rest, uid, c => if e.1 = uid then (uid, c) :: rest else e :: dbInsert rest uid c

/-- Erasure by key, as `buildingDatabase.erase(uid)`. -/
def dbErase : Db → String → Db
  | [], _ => []
  | e :: rest, uid => if e.1 = uid then rest else e :: dbErase rest uid

/-- Refresh of the last-seen timestamp of the entry with the given key,
as `buildingDatabase[uid].lastSeen = millis()` on a present key. -/
def dbRefresh : Db → String → Nat → Db
  | [], _, _ => []
  | e :: rest, uid, now =>
    if e.1 = uid then (e.1, { e.2 with lastSeen := now }) :: rest
    else e :: dbRefresh rest uid now

/-- The membership test `hasBuilding` of the source. -/
def hasBuilding (db : Db) (uid : String) : Bool :=
  (dbFind db uid).isSome

/-- The source operation `addBuilding`: reject an empty UID; on a
present UID refresh its last-seen timestamp and report `false`;
otherwise insert a card whose two timestamps are both the current time
and report `true`. -/
def addBuilding (db : Db) (uid : String) (buildingType : Nat) (now : Nat) : Bool × Db :=
  if uid.length = 0 then (false, db)
  else
    match dbFind db uid with
    | some _ => (false, dbRefresh db uid now)
    | none => (true, dbInsert db uid ⟨uid, buildingType, now, now⟩)

/-- The source operation `removeBuilding`: erase by key and report
whether a node was erased (`erase(uid) > 0`). -/
def removeBuilding (db : Db) (uid : String) : Bool × Db :=
  (decide ((dbErase db uid).length < db.length), dbErase db uid)

/-- The registry state: the database and the delete-mode flag. -/
structure RegistryState where
  db : Db
  deleteMode : Bool
  deriving DecidableEq

/-- Observable outcome of one scan cycle: the boolean returned by
`scanForCards`, the database afterwards, and the callback invocations
(arguments of `onNewBuildingCallback` and `onDeleteBuildingCallback`)
fired during the cycle. -/
structure ScanOut where
  ret : Bool
  db : Db
  newEvents : List (Nat × String)
  removedEvents : List (Nat × String)
  deriving DecidableEq

/-- The dispatch phase of `scanForCards` (source lines 156 to 198),
given the UID string and decoded building type obtained from the
hardware earlier in the cycle.  In delete mode a present UID is erased
and the delete callback fired with the erased card's type; in add mode
an absent UID is added (the result of `addBuilding` is ignored) and the
new-card callback fired, while a present UID only has its last-seen
timestamp refreshed. -/
def scanForCards (s : RegistryState) (uid : String) (buildingType : Nat) (now : Nat) :
    ScanOut :=
  if s.deleteMode then
    match dbFind s.db uid with
    | some card =>
      if (removeBuilding s.db uid).1 then
        ⟨true, (removeBuilding s.db uid).2, [], [(card.buildingType, uid)]⟩
      else ⟨false, (removeBuilding s.db uid).2, [], []⟩
    | none => ⟨false, s.db, [], []⟩
  else
    match dbFind s.db uid with
    | none => ⟨true, (addBuilding s.db uid buildingType now).2, [(buildingType, uid)], []⟩
    | some _ => ⟨false, dbRefresh s.db uid now, [], []⟩

/-- Registry states reachable from the empty registry by the source's
operations, with monotone timestamps: the index is the largest
timestamp used so far. -/
inductive Reach : Nat → RegistryState → Prop
  | init : Reach 0 ⟨[], false⟩
  | add (t now : Nat) (s : RegistryState) (uid : String) (k : Nat) :
      Reach t s → t ≤ now →
      Reach now ⟨(addBuilding s.db uid k now).2, s.deleteMode⟩
  | remove (t : Nat) (s : RegistryState) (uid : String) :
      Reach t s → Reach t ⟨(removeBuilding s.db uid).2, s.deleteMode⟩
  | clear (t : Nat) (s : RegistryState) :
      Reach t s → Reach t ⟨[], s.deleteMode⟩
  | mode (t : Nat) (s : RegistryState) (m : Bool) :
      Reach t s → Reach t ⟨s.db, m⟩
  | scan (t now : Nat) (s : RegistryState) (uid : String) (bt : Nat) :
      Reach t s → t ≤ now →
      Reach now ⟨(scanForCards s uid bt now).db, s.deleteMode⟩

/-- The registry invariant at time `t`: keys are unique, every stored
card carries its own key as a non-empty uid, its timestamps are ordered,
and no timestamp exceeds `t`. -/
def dbInv (t : Nat) (db : Db) : Prop :=
  (db.map Prod.fst).Nodup ∧
  ∀ e ∈ db, e.2.uid = e.1 ∧ e.1 ≠ "" ∧ e.2.firstSeen ≤ e.2.lastSeen ∧ e.2.lastSeen ≤ t

/-!
Safety lemmas: with fuel at least the length of the remaining input,
no loop runs out of fuel and no indexed read is out of bounds.
-/

theorem afterId_isSome (data : List Nat) (msgEnd header typeLen payloadLen idLen c : Nat)
    (hme : msgEnd ≤ data.length) :
    (afterId data msgEnd header typeLen payloadLen idLen c).isSome := by
  unfold afterId
  repeat' split
  all_goals simp_all [List.getElem?_eq_none_iff]
  all_goals omega

theorem idStage_isSome (data : List Nat) (msgEnd header typeLen payloadLen c : Nat)
    (hme : msgEnd ≤ data.length) :
    (idStage data msgEnd header typeLen payloadLen c).isSome := by
  unfold idStage
  repeat' split
  all_goals first
    | rfl
    | (apply afterId_isSome _ _ _ _ _ _ _ hme)
    | simp_all [within, List.getElem?_eq_none_iff]

theorem afterId_inr (data : List Nat) (msgEnd header typeLen payloadLen idLen c q : Nat)
    (h : afterId data msgEnd header typeLen payloadLen idLen c = some (Sum.inr q)) :
    c ≤ q := by
  unfold afterId at h
  repeat' split at h
  all_goals simp_all
  all_goals omega

theorem idStage_inr (data : List Nat) (msgEnd header typeLen payloadLen c q : Nat)
    (h : idStage data msgEnd header typeLen payloadLen c = some (Sum.inr q)) :
    c ≤ q := by
  unfold idStage at h
  repeat' split at h
  all_goals simp_all
  all_goals (have h9 := afterId_inr _ _ _ _ _ _ _ _ h; omega)

theorem recLoopF_isSome (data : List Nat) (fuel msgEnd p : Nat)
    (hme : msgEnd ≤ data.length) (hfu : msgEnd - p ≤ fuel) :
    (recLoopF data fuel msgEnd p).isSome := by
  induction fuel generalizing p with
  | zero =>
    unfold recLoopF
    split
    · next hp => exact absurd hp (by omega)
    · rfl
  | succ fuel ih =>
    unfold recLoopF
    split
    · next hp =>
      simp only [within]
      repeat' split
      all_goals first
        | rfl
        | (simp_all [List.getElem?_eq_none_iff] <;> omega)
        | (next q hq =>
            have h3 := idStage_inr _ _ _ _ _ _ _ hq
            exact ih q (by omega))
        | (next hq => exact absurd (idStage_isSome _ _ _ _ _ _ hme) (by rw [hq]; simp))
        | (next hq =>
            exfalso
            exact hq _ _ _ _ (List.getElem?_eq_getElem (by omega))
              (List.getElem?_eq_getElem (by omega))
              (List.getElem?_eq_getElem (by omega))
              (List.getElem?_eq_getElem (by omega)))
    · rfl

theorem msgTLV_isSome (data : List Nat) (fuel i lenFieldBytes ndefLen : Nat)
    (hfu : data.length - (i + 1 + lenFieldBytes) ≤ fuel) :
    (msgTLV data fuel i lenFieldBytes ndefLen).isSome := by
  unfold msgTLV
  split
  · rfl
  · apply recLoopF_isSome
    · exact Nat.min_le_right _ _
    · have := Nat.min_le_right (i + 1 + lenFieldBytes + ndefLen) data.length
      omega

theorem tlvLoopF_isSome (data : List Nat) (fuel i : Nat)
    (hfu : data.length - i ≤ fuel) :
    (tlvLoopF data fuel i).isSome := by
  induction fuel generalizing i with
  | zero =>
    unfold tlvLoopF
    split
    · next hp => exact absurd hp (by omega)
    · rfl
  | succ fuel ih =>
    unfold tlvLoopF
    split
    · next hp =>
      simp only [within]
      repeat' split
      all_goals first
        | rfl
        | (simp_all [List.getElem?_eq_none_iff] <;> omega)
        | (exact ih _ (by omega))
        | (apply msgTLV_isSome; omega)
        | (next hq =>
            exfalso
            exact hq _ _ (List.getElem?_eq_getElem (by omega))
              (List.getElem?_eq_getElem (by omega)))
    · rfl

theorem fallbackScanF_isSome (data : List Nat) (fuel k : Nat)
    (hfu : data.length - k ≤ fuel) :
    (fallbackScanF data fuel k).isSome := by
  induction fuel generalizing k with
  | zero =>
    unfold fallbackScanF
    split
    · next hp => exact absurd hp (by omega)
    · rfl
  | succ fuel ih =>
    unfold fallbackScanF
    split
    · next hp =>
      repeat' split
      all_goals first
        | rfl
        | (simp_all [List.getElem?_eq_none_iff] <;> omega)
        | (exact ih _ (by omega))
        | (next hq =>
            exfalso
            exact hq _ _ (List.getElem?_eq_getElem (by omega))
              (List.getElem?_eq_getElem (by omega)))
    · rfl

theorem parseFuel_isSome (data : List Nat) (fuel : Nat) (hfu : data.length ≤ fuel) :
    (parseFuel data fuel).isSome := by
  unfold parseFuel
  split
  · rfl
  · have h1 := tlvLoopF_isSome data fuel 0 (by omega)
    rcases hh : tlvLoopF data fuel 0 with _ | r
    · rw [hh] at h1
      simp at h1
    · rcases r with _ | v
      · exact fallbackScanF_isSome data fuel 0 (by omega)
      · rfl

theorem parseM_isSome (data : List Nat) : (parseNDEFBuildingTypeM data).isSome :=
  parseFuel_isSome data data.length le_rfl

theorem parseM_eq_some (data : List Nat) :
    parseNDEFBuildingTypeM data = some (parseNDEFBuildingType data) := by
  have h := parseM_isSome data
  unfold parseNDEFBuildingType
  rcases hh : parseNDEFBuildingTypeM data with _ | v
  · rw [hh] at h
    simp at h
  · simp

/-!
Fuel irrelevance: any fuel at least the length of the remaining input
yields the same result, because every loop iteration strictly advances
its cursor.
-/

theorem recLoopF_congr (data : List Nat) (f1 f2 msgEnd p : Nat)
    (h1 : msgEnd - p ≤ f1) (h2 : msgEnd - p ≤ f2) :
    recLoopF data f1 msgEnd p = recLoopF data f2 msgEnd p := by
  induction f1 generalizing f2 p with
  | zero =>
    have hnp : ¬ p < msgEnd := by omega
    cases f2 with
    | zero => rfl
    | succ f2 => simp only [recLoopF, if_neg hnp]
  | succ f1 ih =>
    by_cases hp : p < msgEnd
    · cases f2 with
      | zero => omega
      | succ f2 =>
        simp only [recLoopF, if_pos hp]
        repeat' split
        all_goals first
          | rfl
          | (next q hq =>
              have h3 := idStage_inr _ _ _ _ _ _ _ hq
              exact ih f2 q (by omega) (by omega))
    · cases f2 with
      | zero => simp only [recLoopF, if_neg hp]
      | succ f2 => simp only [recLoopF, if_neg hp]

theorem msgTLV_congr (data : List Nat) (f1 f2 i lenFieldBytes ndefLen : Nat)
    (h1 : data.length - (i + 1 + lenFieldBytes) ≤ f1)
    (h2 : data.length - (i + 1 + lenFieldBytes) ≤ f2) :
    msgTLV data f1 i lenFieldBytes ndefLen = msgTLV data f2 i lenFieldBytes ndefLen := by
  unfold msgTLV
  split
  · rfl
  · apply recLoopF_congr
    · have := Nat.min_le_right (i + 1 + lenFieldBytes + ndefLen) data.length
      omega
    · have := Nat.min_le_right (i + 1 + lenFieldBytes + ndefLen) data.length
      omega

theorem tlvLoopF_congr (data : List Nat) (f1 f2 i : Nat)
    (h1 : data.length - i ≤ f1) (h2 : data.length - i ≤ f2) :
    tlvLoopF data f1 i = tlvLoopF data f2 i := by
  induction f1 generalizing f2 i with
  | zero =>
    have hnp : ¬ i < data.length := by omega
    cases f2 with
    | zero => rfl
    | succ f2 => simp only [tlvLoopF, if_neg hnp]
  | succ f1 ih =>
    by_cases hp : i < data.length
    · cases f2 with
      | zero => omega
      | succ f2 =>
        simp only [tlvLoopF, if_pos hp]
        repeat' split
        all_goals first
          | rfl
          | (exact ih f2 _ (by omega) (by omega))
          | (apply msgTLV_congr <;> omega)
    · cases f2 with
      | zero => simp only [tlvLoopF, if_neg hp]
      | succ f2 => simp only [tlvLoopF, if_neg hp]

theorem fallbackScanF_congr (data : List Nat) (f1 f2 k : Nat)
    (h1 : data.length - k ≤ f1) (h2 : data.length - k ≤ f2) :
    fallbackScanF data f1 k = fallbackScanF data f2 k := by
  induction f1 generalizing f2 k with
  | zero =>
    have hnp : ¬ k + 4 < data.length := by omega
    cases f2 with
    | zero => rfl
    | succ f2 => simp only [fallbackScanF, if_neg hnp]
  | succ f1 ih =>
    by_cases hp : k + 4 < data.length
    · cases f2 with
      | zero => omega
      | succ f2 =>
        simp only [fallbackScanF, if_pos hp]
        repeat' split
        all_goals first
          | rfl
          | (exact ih f2 _ (by omega) (by omega))
    · cases f2 with
      | zero => simp only [fallbackScanF, if_neg hp]
      | succ f2 => simp only [fallbackScanF, if_neg hp]

theorem parseFuel_congr (data : List Nat) (f1 f2 : Nat)
    (h1 : data.length ≤ f1) (h2 : data.length ≤ f2) :
    parseFuel data f1 = parseFuel data f2 := by
  unfold parseFuel
  split
  · rfl
  · rw [tlvLoopF_congr data f1 f2 0 (by omega) (by omega),
      fallbackScanF_congr data f1 f2 0 (by omega) (by omega)]

/-!
Provenance lemmas: every value the decoder returns is either the
sentinel 0 or a byte read out of the input buffer.
-/

theorem afterId_ret_mem (data : List Nat) (msgEnd header typeLen payloadLen idLen c v : Nat)
    (h : afterId data msgEnd header typeLen payloadLen idLen c = some (Sum.inl (some v))) :
    v = 0 ∨ v ∈ data := by
  unfold afterId at h
  repeat' split at h
  all_goals first
    | (next hr =>
        right
        simp only [Option.some.injEq, Sum.inl.injEq] at h
        exact h ▸ List.getElem?_mem hr)
    | (left
       simp only [Option.some.injEq, Sum.inl.injEq] at h
       omega)
    | simp_all

theorem idStage_ret_mem (data : List Nat) (msgEnd header typeLen payloadLen c v : Nat)
    (h : idStage data msgEnd header typeLen payloadLen c = some (Sum.inl (some v))) :
    v = 0 ∨ v ∈ data := by
  unfold idStage at h
  repeat' split at h
  all_goals first
    | (exact afterId_ret_mem _ _ _ _ _ _ _ _ h)
    | simp_all

theorem recLoopF_ret_mem (data : List Nat) (fuel msgEnd p v : Nat)
    (h : recLoopF data fuel msgEnd p = some (some v)) :
    v = 0 ∨ v ∈ data := by
  induction fuel generalizing p with
  | zero =>
    unfold recLoopF at h
    split at h <;> simp_all
  | succ fuel ih =>
    unfold recLoopF at h
    split at h
    · repeat' split at h
      all_goals first
        | (exact ih _ h)
        | (next r hq =>
            simp only [Option.some.injEq] at h
            rw [h] at hq
            exact idStage_ret_mem _ _ _ _ _ _ _ hq)
        | simp_all
    · simp_all

theorem fallbackScanF_ret_mem (data : List Nat) (fuel k v : Nat)
    (h : fallbackScanF data fuel k = some v) :
    v = 0 ∨ v ∈ data := by
  induction fuel generalizing k with
  | zero =>
    unfold fallbackScanF at h
    split at h <;> simp_all
  | succ fuel ih =>
    unfold fallbackScanF at h
    split at h
    · repeat' split at h
      all_goals first
        | (exact ih _ h)
        | (next hr =>
            right
            simp only [Option.some.injEq] at h
            exact h ▸ List.getElem?_mem hr)
        | simp_all
    · simp_all

theorem msgTLV_ret_mem (data : List Nat) (fuel i lenFieldBytes ndefLen v : Nat)
    (h : msgTLV data fuel i lenFieldBytes ndefLen = some (some v)) :
    v = 0 ∨ v ∈ data := by
  unfold msgTLV at h
  split at h
  · simp_all
  · exact recLoopF_ret_mem _ _ _ _ _ h

theorem tlvLoopF_ret_mem (data : List Nat) (fuel i v : Nat)
    (h : tlvLoopF data fuel i = some (some v)) :
    v = 0 ∨ v ∈ data := by
  induction fuel generalizing i with
  | zero =>
    unfold tlvLoopF at h
    split at h <;> simp_all
  | succ fuel ih =>
    unfold tlvLoopF at h
    split at h
    · repeat' split at h
      all_goals first
        | (exact ih _ h)
        | (exact msgTLV_ret_mem _ _ _ _ _ _ h)
        | simp_all
    · simp_all

/-!
Structure lemmas: a non-zero value returned through the record loop
comes from a complete matching record inside the buffer, and a non-zero
value returned by the fallback scan comes from an occurrence of the raw
marker pattern.
-/

theorem afterId_ret_rec (data : List Nat) (msgEnd header typeLen payloadLen idLen c v : Nat)
    (h : afterId data msgEnd header typeLen payloadLen idLen c = some (Sum.inl (some v)))
    (hv : v ≠ 0) :
    typeLen = 1 ∧ data.getD c 0 = 66 ∧ 1 ≤ payloadLen ∧
      c + typeLen + idLen + payloadLen ≤ msgEnd := by
  unfold afterId at h
  repeat' split at h
  all_goals simp_all [List.getD_eq_getElem?_getD]

theorem idStage_ret_rec (data : List Nat) (msgEnd header typeLen payloadLen c v : Nat)
    (h : idStage data msgEnd header typeLen payloadLen c = some (Sum.inl (some v)))
    (hv : v ≠ 0) :
    ∃ idLen ilB,
      ((header &&& 8 = 0 ∧ ilB = 0 ∧ idLen = 0) ∨
        (header &&& 8 ≠ 0 ∧ ilB = 1 ∧ data.getD c 0 = idLen)) ∧
      typeLen = 1 ∧ data.getD (c + ilB) 0 = 66 ∧ 1 ≤ payloadLen ∧
      c + ilB + typeLen + idLen + payloadLen ≤ msgEnd := by
  unfold idStage at h
  split at h
  · split at h
    · split at h
      · simp_all
      · next idl hidl =>
        obtain ⟨ha, hb, hc, hd⟩ := afterId_ret_rec _ _ _ _ _ _ _ _ h hv
        refine ⟨idl, 1, Or.inr ⟨by assumption, rfl, ?_⟩, ha, ?_, hc, by omega⟩
        · simp [List.getD_eq_getElem?_getD, hidl]
        · exact hb
    · simp_all
  · next hil =>
    obtain ⟨ha, hb, hc, hd⟩ := afterId_ret_rec _ _ _ _ _ _ _ _ h hv
    exact ⟨0, 0, Or.inl ⟨by omega, rfl, rfl⟩, ha, by simpa using hb, hc, by omega⟩

theorem recLoopF_ret_rec (data : List Nat) (fuel msgEnd p v : Nat)
    (hme : msgEnd ≤ data.length)
    (h : recLoopF data fuel msgEnd p = some (some v)) (hv : v ≠ 0) :
    ∃ hs, hs < data.length ∧ completeRecordAt data hs = true := by
  induction fuel generalizing p with
  | zero =>
    unfold recLoopF at h
    split at h <;> simp_all
  | succ fuel ih =>
    unfold recLoopF at h
    split at h
    · repeat' split at h
      all_goals first
        | (exact ih _ h)
        | (next r hq =>
            simp only [Option.some.injEq] at h
            rw [h] at hq
            obtain ⟨idLen, ilB, hcase, hT, hB, hP, hEnd⟩ := idStage_ret_rec _ _ _ _ _ _ _ hq hv
            refine ⟨p, by simp_all [within], ?_⟩
            rcases hcase with ⟨h8, hilB, hidl⟩ | ⟨h8, hilB, hidl⟩ <;> subst hilB <;>
              simp_all [completeRecordAt, within, List.getD_eq_getElem?_getD] <;> omega)
        | simp_all
    · simp_all

theorem msgTLV_ret_rec (data : List Nat) (fuel i lenFieldBytes ndefLen v : Nat)
    (h : msgTLV data fuel i lenFieldBytes ndefLen = some (some v)) (hv : v ≠ 0) :
    ∃ hs, hs < data.length ∧ completeRecordAt data hs = true := by
  unfold msgTLV at h
  split at h
  · simp_all
  · exact recLoopF_ret_rec _ _ _ _ _ (Nat.min_le_right _ _) h hv

theorem tlvLoopF_ret_rec (data : List Nat) (fuel i v : Nat)
    (h : tlvLoopF data fuel i = some (some v)) (hv : v ≠ 0) :
    ∃ hs, hs < data.length ∧ completeRecordAt data hs = true := by
  induction fuel generalizing i with
  | zero =>
    unfold tlvLoopF at h
    split at h <;> simp_all
  | succ fuel ih =>
    unfold tlvLoopF at h
    split at h
    · repeat' split at h
      all_goals first
        | (exact ih _ h)
        | (exact msgTLV_ret_rec _ _ _ _ _ _ h hv)
        | simp_all
    · simp_all

theorem fallbackScanF_ret_pattern (data : List Nat) (fuel k v : Nat)
    (h : fallbackScanF data fuel k = some v) (hv : v ≠ 0) :
    ∃ j, patternAt data j := by
  induction fuel generalizing k with
  | zero =>
    unfold fallbackScanF at h
    split at h <;> simp_all
  | succ fuel ih =>
    unfold fallbackScanF at h
    split at h
    · repeat' split at h
      all_goals first
        | (exact ih _ h)
        | (refine ⟨k, ?_⟩
           simp_all [patternAt, List.getD_eq_getElem?_getD])
    · simp_all

theorem fallbackScanF_finds (data : List Nat) (fuel k0 k : Nat)
    (hk0 : k0 ≤ k) (hpat : patternAt data k)
    (hfirst : ∀ j, k0 ≤ j → j < k → ¬ patternAt data j)
    (hfu : data.length - k0 ≤ fuel) :
    fallbackScanF data fuel k0 = data[k + 4]? := by
  obtain ⟨hplen, hpflags, hptl, hppl, hptb⟩ := hpat
  induction fuel generalizing k0 with
  | zero => omega
  | succ fuel ih =>
    have hk4 : k0 + 4 < data.length := by omega
    obtain ⟨flags, hflags⟩ : ∃ b, data[k0]? = some b :=
      ⟨_, List.getElem?_eq_getElem (by omega)⟩
    obtain ⟨tLen, htLen⟩ : ∃ b, data[k0 + 1]? = some b :=
      ⟨_, List.getElem?_eq_getElem (by omega)⟩
    obtain ⟨pLen, hpLen⟩ : ∃ b, data[k0 + 2]? = some b :=
      ⟨_, List.getElem?_eq_getElem (by omega)⟩
    obtain ⟨tb, htb⟩ : ∃ b, data[k0 + 3]? = some b :=
      ⟨_, List.getElem?_eq_getElem (by omega)⟩
    unfold fallbackScanF
    rw [if_pos hk4]
    rcases Nat.eq_or_lt_of_le hk0 with hk | hk
    · subst hk
      have e1 : flags &&& 16 ≠ 0 := by
        rw [List.getD_eq_getElem?_getD, hflags] at hpflags
        simpa using hpflags
      have e2 : tLen = 1 := by
        rw [List.getD_eq_getElem?_getD, htLen] at hptl
        simpa using hptl
      have e3 : 1 ≤ pLen := by
        rw [List.getD_eq_getElem?_getD, hpLen] at hppl
        simpa using hppl
      have e4 : tb = 66 := by
        rw [List.getD_eq_getElem?_getD, htb] at hptb
        simpa using hptb
      obtain ⟨v4, hv4⟩ : ∃ b, data[k0 + 4]? = some b :=
        ⟨_, List.getElem?_eq_getElem (by omega)⟩
      simp only [hflags, if_neg e1, htLen, hpLen, if_pos e2, if_pos e3, htb, if_pos e4, hv4]
    · have hnk0 : ¬ patternAt data k0 := hfirst k0 le_rfl hk
      have hrec : fallbackScanF data fuel (k0 + 1) = data[k + 4]? :=
        ih (k0 + 1) (by omega) (fun j hj1 hj2 => hfirst j (by omega) hj2) (by omega)
      by_cases hf : flags &&& 16 = 0
      · simp only [hflags, if_pos hf]
        exact hrec
      · simp only [hflags, if_neg hf, htLen, hpLen]
        by_cases ht1 : tLen = 1
        · simp only [if_pos ht1]
          by_cases hp1 : 1 ≤ pLen
          · simp only [if_pos hp1, htb]
            by_cases htb66 : tb = 66
            · exfalso
              apply hnk0
              refine ⟨by omega, ?_, ?_, ?_, ?_⟩ <;>
                simp [List.getD_eq_getElem?_getD, hflags, htLen, hpLen, htb, hf, ht1, hp1,
                  htb66]
            · simp only [if_neg htb66]
              exact hrec
          · simp only [if_neg hp1]
            exact hrec
        · simp only [if_neg ht1]
          exact hrec

/-!
Registry lemmas.
-/

theorem dbFind_refresh_self (db : Db) (uid : String) (now : Nat) :
    dbFind (dbRefresh db uid now) uid =
      (dbFind db uid).map (fun c => { c with lastSeen := now }) := by
  induction db with
  | nil => rfl
  | cons e rest ih =>
    by_cases he : e.1 = uid
    · simp [dbRefresh, dbFind, he]
    · simp [dbRefresh, dbFind, he, ih]

theorem dbFind_refresh_other (db : Db) (uid u : String) (now : Nat) (hu : u ≠ uid) :
    dbFind (dbRefresh db uid now) u = dbFind db u := by
  induction db with
  | nil => rfl
  | cons e rest ih =>
    by_cases he : e.1 = uid
    · simp [dbRefresh, dbFind, he, Ne.symm hu]
    · by_cases heu : e.1 = u
      · simp [dbRefresh, dbFind, he, heu, hu]
      · simp [dbRefresh, dbFind, he, heu, ih]

theorem dbFind_insert_self (db : Db) (uid : String) (c : BuildingCard) :
    dbFind (dbInsert db uid c) uid = some c := by
  induction db with
  | nil => simp [dbInsert, dbFind]
  | cons e rest ih =>
    by_cases he : e.1 = uid
    · simp [dbInsert, dbFind, he]
    · simp [dbInsert, dbFind, he, ih]

theorem dbFind_insert_other (db : Db) (uid u : String) (c : BuildingCard) (hu : u ≠ uid) :
    dbFind (dbInsert db uid c) u = dbFind db u := by
  induction db with
  | nil => simp [dbInsert, dbFind, Ne.symm hu]
  | cons e rest ih =>
    by_cases he : e.1 = uid
    · simp [dbInsert, dbFind, he, Ne.symm hu]
    · simp [dbInsert, dbFind, he, ih]

theorem dbErase_of_absent (db : Db) (uid : String) (h : dbFind db uid = none) :
    dbErase db uid = db := by
  induction db with
  | nil => rfl
  | cons e rest ih =>
    by_cases he : e.1 = uid
    · simp [dbFind, he] at h
    · simp [dbFind, he] at h
      simp [dbErase, he, ih h]

theorem dbErase_length_of_present (db : Db) (uid : String) (c : BuildingCard)
    (h : dbFind db uid = some c) :
    (dbErase db uid).length + 1 = db.length := by
  induction db with
  | nil => simp [dbFind] at h
  | cons e rest ih =>
    by_cases he : e.1 = uid
    · simp [dbErase, he]
    · simp [dbFind, he] at h
      simp [dbErase, he, ih h]

theorem removeBuilding_fst_iff (db : Db) (uid : String) :
    (removeBuilding db uid).1 = true ↔ (dbFind db uid).isSome := by
  unfold removeBuilding
  rcases h : dbFind db uid with _ | c
  · simp [dbErase_of_absent db uid h]
  · have := dbErase_length_of_present db uid c h
    simp
    omega

theorem dbErase_sublist (db : Db) (uid : String) : (dbErase db uid).Sublist db := by
  induction db with
  | nil => simp [dbErase]
  | cons e rest ih =>
    by_cases he : e.1 = uid
    · simp [dbErase, he]
    · simp [dbErase, he]
      exact ih

theorem dbFind_eq_none_iff (db : Db) (uid : String) :
    dbFind db uid = none ↔ uid ∉ db.map Prod.fst := by
  induction db with
  | nil => simp [dbFind]
  | cons e rest ih =>
    by_cases he : e.1 = uid
    · simp [dbFind, he]
    · simp [dbFind, he, ih, Ne.symm he]

theorem dbFind_erase_self (db : Db) (uid : String) (hn : (db.map Prod.fst).Nodup) :
    dbFind (dbErase db uid) uid = none := by
  induction db with
  | nil => rfl
  | cons e rest ih =>
    simp at hn
    by_cases he : e.1 = uid
    · simp [dbErase, he]
      rw [dbFind_eq_none_iff]
      rw [he] at hn
      intro hmem
      rw [List.mem_map] at hmem
      obtain ⟨x, hx, hx1⟩ := hmem
      have hx2 : (x.1, x.2) ∈ rest := by simpa using hx
      rw [hx1] at hx2
      exact hn.1 x.2 hx2
    · simp [dbErase, dbFind, he]
      exact ih hn.2

theorem dbInv_mono (t t' : Nat) (db : Db) (h : dbInv t db) (ht : t ≤ t') : dbInv t' db := by
  obtain ⟨h1, h2⟩ := h
  refine ⟨h1, fun e he => ?_⟩
  obtain ⟨a, b, c, d⟩ := h2 e he
  exact ⟨a, b, c, by omega⟩

theorem dbRefresh_keys (db : Db) (uid : String) (now : Nat) :
    (dbRefresh db uid now).map Prod.fst = db.map Prod.fst := by
  induction db with
  | nil => rfl
  | cons e rest ih =>
    by_cases he : e.1 = uid
    · simp [dbRefresh, he]
    · simp [dbRefresh, he, ih]

theorem dbRefresh_mem (db : Db) (uid : String) (now : Nat) (x : String × BuildingCard)
    (hx : x ∈ dbRefresh db uid now) :
    x ∈ db ∨ ∃ e ∈ db, x = (e.1, { e.2 with lastSeen := now }) := by
  induction db with
  | nil => simp [dbRefresh] at hx
  | cons e rest ih =>
    by_cases he : e.1 = uid
    · simp only [dbRefresh, if_pos he, List.mem_cons] at hx
      rcases hx with hx | hx
      · right
        exact ⟨e, List.mem_cons_self e rest, hx⟩
      · left
        exact List.mem_cons_of_mem e hx
    · simp only [dbRefresh, if_neg he, List.mem_cons] at hx
      rcases hx with hx | hx
      · left
        rw [hx]
        exact List.mem_cons_self e rest
      · rcases ih hx with h | ⟨e2, he2, hxe⟩
        · left
          exact List.mem_cons_of_mem e h
        · right
          exact ⟨e2, List.mem_cons_of_mem e he2, hxe⟩

theorem dbRefresh_inv (t now : Nat) (db : Db) (uid : String)
    (h : dbInv t db) (ht : t ≤ now) : dbInv now (dbRefresh db uid now) := by
  refine ⟨by rw [dbRefresh_keys]; exact h.1, fun x hx => ?_⟩
  rcases dbRefresh_mem db uid now x hx with hx2 | ⟨e, he, hxe⟩
  · obtain ⟨a, b, c, d⟩ := h.2 x hx2
    exact ⟨a, b, c, by omega⟩
  · obtain ⟨a, b, c, d⟩ := h.2 e he
    rw [hxe]
    refine ⟨a, b, ?_, ?_⟩
    · show e.2.firstSeen ≤ now
      omega
    · show now ≤ now
      exact le_rfl

theorem dbInsert_of_absent (db : Db) (uid : String) (c : BuildingCard)
    (h : dbFind db uid = none) :
    dbInsert db uid c = db ++ [(uid, c)] := by
  induction db with
  | nil => rfl
  | cons e rest ih =>
    by_cases he : e.1 = uid
    · simp [dbFind, he] at h
    · simp [dbFind, he] at h
      simp [dbInsert, he, ih h]

theorem addBuilding_inv (t now : Nat) (db : Db) (uid : String) (k : Nat)
    (h : dbInv t db) (ht : t ≤ now) : dbInv now (addBuilding db uid k now).2 := by
  unfold addBuilding
  split
  · exact dbInv_mono t now db h ht
  · next hlen =>
    split
    · exact dbRefresh_inv t now db uid h ht
    · next hnone =>
      have hmem := (dbFind_eq_none_iff db uid).mp hnone
      have huid : uid ≠ "" := by
        intro hh
        rw [hh] at hlen
        simp at hlen
      show dbInv now (dbInsert db uid ⟨uid, k, now, now⟩)
      rw [dbInsert_of_absent db uid _ hnone]
      refine ⟨?_, fun x hx => ?_⟩
      · rw [List.map_append]
        simp [List.nodup_append, h.1]
        intro a ha
        exact hmem (List.mem_map_of_mem Prod.fst ha)
      · rcases List.mem_append.mp hx with hx | hx
        · obtain ⟨a, b, c, d⟩ := h.2 x hx
          exact ⟨a, b, c, by omega⟩
        · simp at hx
          rw [hx]
          exact ⟨rfl, huid, le_rfl, le_rfl⟩

theorem removeBuilding_inv (t : Nat) (db : Db) (uid : String)
    (h : dbInv t db) : dbInv t (removeBuilding db uid).2 := by
  refine ⟨?_, fun e he => h.2 e ((dbErase_sublist db uid).subset he)⟩
  exact List.Nodup.sublist ((dbErase_sublist db uid).map Prod.fst) h.1

theorem scanForCards_inv (t now : Nat) (s : RegistryState) (uid : String) (bt : Nat)
    (h : dbInv t s.db) (ht : t ≤ now) : dbInv now (scanForCards s uid bt now).db := by
  unfold scanForCards
  split
  · split
    · split
      · exact dbInv_mono t now _ (removeBuilding_inv t s.db uid h) ht
      · exact dbInv_mono t now _ (removeBuilding_inv t s.db uid h) ht
    · exact dbInv_mono t now _ h ht
  · split
    · exact addBuilding_inv t now s.db uid bt h ht
    · exact dbRefresh_inv t now s.db uid h ht

theorem reachInv (t : Nat) (s : RegistryState) (h : Reach t s) : dbInv t s.db := by
  induction h with
  | init => exact ⟨by simp, by simp⟩
  | add t now s uid k hr ht ih => exact addBuilding_inv t now s.db uid k ih ht
  | remove t s uid hr ih => exact removeBuilding_inv t s.db uid ih
  | clear t s hr ih => exact ⟨by simp, by simp⟩
  | mode t s m hr ih => exact ih
  | scan t now s uid bt hr ht ih => exact scanForCards_inv t now s uid bt ih ht

/-!
First-iteration unfolding of the TLV walk on a buffer that starts with a
message TLV, in the short and the extended length form.
-/

theorem parse_msg_short (b : Nat) (body : List Nat) (hb : body ≠ []) (hb255 : b ≠ 255) :
    parseNDEFBuildingTypeM (3 :: b :: body) =
      afterMsg (3 :: b :: body) 2 (min (2 + b) (3 :: b :: body).length) := by
  have hpos : 0 < body.length := List.length_pos.mpr hb
  have hlen : (3 :: b :: body).length = body.length + 1 + 1 := by simp
  unfold parseNDEFBuildingTypeM parseFuel afterMsg
  rw [if_neg (by simp)]
  suffices hh : tlvLoopF (3 :: b :: body) (3 :: b :: body).length 0 =
      recLoopF (3 :: b :: body) (3 :: b :: body).length
        (min (2 + b) (3 :: b :: body).length) 2 by
    rw [hh]
  rw [hlen, tlvLoopF]
  simp only [List.getElem?_cons_zero, List.getElem?_cons_succ, within, List.length_cons]
  norm_num
  rw [if_neg hb255]
  unfold msgTLV
  have hcond : ¬ 0 + 1 + 1 ≥ (3 :: b :: body).length := by
    rw [hlen]
    omega
  rw [if_neg hcond]
  norm_num [hlen]
  have hm := Nat.min_le_right (2 + b) (body.length + 1 + 1)
  apply recLoopF_congr <;> omega

theorem parse_msg_ext (hi lo : Nat) (body : List Nat) (hb : body ≠ []) :
    parseNDEFBuildingTypeM (3 :: 255 :: hi :: lo :: body) =
      afterMsg (3 :: 255 :: hi :: lo :: body) 4
        (min (4 + (256 * hi + lo)) (3 :: 255 :: hi :: lo :: body).length) := by
  have hpos : 0 < body.length := List.length_pos.mpr hb
  have hlen : (3 :: 255 :: hi :: lo :: body).length = body.length + 3 + 1 := by simp
  unfold parseNDEFBuildingTypeM parseFuel afterMsg
  rw [if_neg (by simp)]
  suffices hh : tlvLoopF (3 :: 255 :: hi :: lo :: body) (3 :: 255 :: hi :: lo :: body).length 0 =
      recLoopF (3 :: 255 :: hi :: lo :: body) (3 :: 255 :: hi :: lo :: body).length
        (min (4 + (256 * hi + lo)) (3 :: 255 :: hi :: lo :: body).length) 4 by
    rw [hh]
  rw [hlen, tlvLoopF]
  simp only [List.getElem?_cons_zero, List.getElem?_cons_succ, within, List.length_cons]
  norm_num
  unfold msgTLV
  have hcond : ¬ 0 + 1 + 3 ≥ (3 :: 255 :: hi :: lo :: body).length := by
    rw [hlen]
    omega
  rw [if_neg hcond]
  norm_num [hlen]
  have hm := Nat.min_le_right (4 + (256 * hi + lo)) (body.length + 3 + 1)
  apply recLoopF_congr <;> omega

theorem length_zero_eq (s : String) (h : s.length = 0) : s = "" := by
  cases s with
  | mk data =>
    cases data with
    | nil => rfl
    | cons c cs => simp [String.length] at h

/-!
Claim theorems.
-/

/-- C2: `addBuilding` rejects the empty UID without mutation; on a
present UID it reports `false`, refreshes only that card's last-seen
timestamp (kind and first-seen unchanged) and leaves every other key
unchanged; on a fresh non-empty UID it reports `true` and inserts a
card whose two timestamps equal the current time, after which the UID
is found. -/
theorem claim_c2 (db : Db) (uid : String) (k now : Nat) :
    (uid = "" → addBuilding db uid k now = (false, db)) ∧
    (uid ≠ "" → ∀ c, dbFind db uid = some c →
      (addBuilding db uid k now).1 = false ∧
      dbFind (addBuilding db uid k now).2 uid = some { c with lastSeen := now } ∧
      ∀ u, u ≠ uid → dbFind (addBuilding db uid k now).2 u = dbFind db u) ∧
    (uid ≠ "" → dbFind db uid = none →
      (addBuilding db uid k now).1 = true ∧
      dbFind (addBuilding db uid k now).2 uid = some ⟨uid, k, now, now⟩ ∧
      ∀ u, u ≠ uid → dbFind (addBuilding db uid k now).2 u = dbFind db u) := by
  refine ⟨?_, ?_, ?_⟩
  · intro h
    subst h
    simp [addBuilding]
  · intro hne c hc
    have hlen : ¬ uid.length = 0 := fun hz => hne (length_zero_eq uid hz)
    unfold addBuilding
    rw [if_neg hlen, hc]
    refine ⟨rfl, ?_, ?_⟩
    · rw [dbFind_refresh_self, hc]
      rfl
    · intro u hu
      exact dbFind_refresh_other db uid u now hu
  · intro hne hnone
    have hlen : ¬ uid.length = 0 := fun hz => hne (length_zero_eq uid hz)
    unfold addBuilding
    rw [if_neg hlen, hnone]
    exact ⟨rfl, dbFind_insert_self db uid _, fun u hu => dbFind_insert_other db uid u _ hu⟩

/-- C2 witness: the three cases at concrete inputs. -/
theorem claim_c2_witness :
    addBuilding [] "" 5 3 = (false, []) ∧
    ((addBuilding [("a", ⟨"a", 7, 1, 1⟩)] "a" 9 4).1 = false ∧
      dbFind (addBuilding [("a", ⟨"a", 7, 1, 1⟩)] "a" 9 4).2 "a" = some ⟨"a", 7, 1, 4⟩) ∧
    ((addBuilding [] "b" 2 6).1 = true ∧
      dbFind (addBuilding [] "b" 2 6).2 "b" = some ⟨"b", 2, 6, 6⟩) :=
  ⟨(claim_c2 [] "" 5 3).1 rfl,
   ⟨((claim_c2 [("a", ⟨"a", 7, 1, 1⟩)] "a" 9 4).2.1 (by decide) ⟨"a", 7, 1, 1⟩ (by decide)).1,
    ((claim_c2 [("a", ⟨"a", 7, 1, 1⟩)] "a" 9 4).2.1 (by decide) ⟨"a", 7, 1, 1⟩ (by decide)).2.1⟩,
   ⟨((claim_c2 [] "b" 2 6).2.2 (by decide) rfl).1,
    ((claim_c2 [] "b" 2 6).2.2 (by decide) rfl).2.1⟩⟩

/-- C3: `removeBuilding` reports `true` exactly when an entry with the
key existed (and was erased); a delete-mode scan of an absent UID
reports `false`, fires no removal event and leaves the database
unchanged; a delete-mode scan of a present UID reports `true`, fires
the removal event exactly once with the removed card's kind and UID,
and afterwards the UID is no longer found. -/
theorem claim_c3 (s : RegistryState) (uid : String) (bt now : Nat)
    (hdel : s.deleteMode = true) (hn : (s.db.map Prod.fst).Nodup) :
    ((removeBuilding s.db uid).1 = true ↔ (dbFind s.db uid).isSome) ∧
    (dbFind s.db uid = none →
      (scanForCards s uid bt now).ret = false ∧
      (scanForCards s uid bt now).removedEvents = [] ∧
      (scanForCards s uid bt now).db = s.db) ∧
    (∀ c, dbFind s.db uid = some c →
      (scanForCards s uid bt now).ret = true ∧
      (scanForCards s uid bt now).removedEvents = [(c.buildingType, uid)] ∧
      (scanForCards s uid bt now).newEvents = [] ∧
      dbFind (scanForCards s uid bt now).db uid = none) := by
  refine ⟨removeBuilding_fst_iff s.db uid, ?_, ?_⟩
  · intro hnone
    have h1 : scanForCards s uid bt now = ⟨false, s.db, [], []⟩ := by
      unfold scanForCards
      rw [hdel, hnone]
      simp
    rw [h1]
    exact ⟨rfl, rfl, rfl⟩
  · intro c hc
    have hrm : (removeBuilding s.db uid).1 = true := by
      rw [removeBuilding_fst_iff, hc]
      rfl
    have h1 : scanForCards s uid bt now =
        ⟨true, (removeBuilding s.db uid).2, [], [(c.buildingType, uid)]⟩ := by
      unfold scanForCards
      rw [hdel, hc]
      simp [hrm]
    rw [h1]
    exact ⟨rfl, rfl, rfl, dbFind_erase_self s.db uid hn⟩

/-- C3 witness: removal behaviour at a concrete one-card registry. -/
theorem claim_c3_witness :
    ((removeBuilding [("a", ⟨"a", 7, 1, 1⟩)] "a").1 = true ↔
      (dbFind [("a", ⟨"a", 7, 1, 1⟩)] "a").isSome) ∧
    ((scanForCards ⟨[("a", ⟨"a", 7, 1, 1⟩)], true⟩ "b" 0 9).ret = false ∧
      (scanForCards ⟨[("a", ⟨"a", 7, 1, 1⟩)], true⟩ "b" 0 9).removedEvents = [] ∧
      (scanForCards ⟨[("a", ⟨"a", 7, 1, 1⟩)], true⟩ "b" 0 9).db = [("a", ⟨"a", 7, 1, 1⟩)]) ∧
    ((scanForCards ⟨[("a", ⟨"a", 7, 1, 1⟩)], true⟩ "a" 0 9).ret = true ∧
      (scanForCards ⟨[("a", ⟨"a", 7, 1, 1⟩)], true⟩ "a" 0 9).removedEvents = [(7, "a")] ∧
      dbFind (scanForCards ⟨[("a", ⟨"a", 7, 1, 1⟩)], true⟩ "a" 0 9).db "a" = none) := by
  have h := claim_c3 ⟨[("a", ⟨"a", 7, 1, 1⟩)], true⟩ "a" 0 9 rfl (by decide)
  have h2 := claim_c3 ⟨[("a", ⟨"a", 7, 1, 1⟩)], true⟩ "b" 0 9 rfl (by decide)
  have h3 := h.2.2 ⟨"a", 7, 1, 1⟩ (by decide)
  exact ⟨h.1, h2.2.1 (by decide), h3.1, h3.2.1, h3.2.2.2⟩

/-- C5 counterexample.  A scan cycle in add mode that detects the empty
UID fires the new-card handler although `addBuilding` rejects the empty
key, so the registry's card set does not change: the handler fires on a
cycle with no true add transition, refuting the claim for such cycles. -/
theorem claim_c5_counterexample :
    (scanForCards ⟨[], false⟩ "" 5 0).newEvents = [(5, "")] ∧
    (scanForCards ⟨[], false⟩ "" 5 0).db = [] := by
  decide

/-- C5 amended.  For every cycle whose detected UID is non-empty:
a first detection in add mode fires the new-card handler exactly once
and truly inserts the card; a repeat detection in add mode fires no
handler and leaves the key set unchanged; a delete-mode detection of a
present UID fires the removed-card handler exactly once with the
removed card's kind, and the removal truly happens; a delete-mode
detection of an absent UID fires no handler and changes nothing. -/
theorem claim_c5 (s : RegistryState) (uid : String) (bt now : Nat) (hu : uid ≠ "") :
    (s.deleteMode = false → dbFind s.db uid = none →
      (scanForCards s uid bt now).newEvents = [(bt, uid)] ∧
      (scanForCards s uid bt now).removedEvents = [] ∧
      dbFind (scanForCards s uid bt now).db uid = some ⟨uid, bt, now, now⟩) ∧
    (s.deleteMode = false → ∀ c, dbFind s.db uid = some c →
      (scanForCards s uid bt now).newEvents = [] ∧
      (scanForCards s uid bt now).removedEvents = [] ∧
      (scanForCards s uid bt now).db.map Prod.fst = s.db.map Prod.fst) ∧
    (s.deleteMode = true → ∀ c, dbFind s.db uid = some c →
      (scanForCards s uid bt now).removedEvents = [(c.buildingType, uid)] ∧
      (scanForCards s uid bt now).newEvents = [] ∧
      (removeBuilding s.db uid).1 = true) ∧
    (s.deleteMode = true → dbFind s.db uid = none →
      (scanForCards s uid bt now).newEvents = [] ∧
      (scanForCards s uid bt now).removedEvents = [] ∧
      (scanForCards s uid bt now).db = s.db) := by
  refine ⟨?_, ?_, ?_, ?_⟩
  · intro hm hnone
    have hlen : ¬ uid.length = 0 := fun hz => hu (length_zero_eq uid hz)
    have h1 : scanForCards s uid bt now =
        ⟨true, (addBuilding s.db uid bt now).2, [(bt, uid)], []⟩ := by
      unfold scanForCards
      rw [hm, hnone]
      simp
    rw [h1]
    refine ⟨rfl, rfl, ?_⟩
    show dbFind (addBuilding s.db uid bt now).2 uid = some ⟨uid, bt, now, now⟩
    unfold addBuilding
    rw [if_neg hlen, hnone]
    exact dbFind_insert_self s.db uid _
  · intro hm c hc
    have h1 : scanForCards s uid bt now = ⟨false, dbRefresh s.db uid now, [], []⟩ := by
      unfold scanForCards
      rw [hm, hc]
      simp
    rw [h1]
    exact ⟨rfl, rfl, dbRefresh_keys s.db uid now⟩
  · intro hm c hc
    have hrm : (removeBuilding s.db uid).1 = true := by
      rw [removeBuilding_fst_iff, hc]
      rfl
    have h1 : scanForCards s uid bt now =
        ⟨true, (removeBuilding s.db uid).2, [], [(c.buildingType, uid)]⟩ := by
      unfold scanForCards
      rw [hm, hc]
      simp [hrm]
    rw [h1]
    exact ⟨rfl, rfl, hrm⟩
  · intro hm hnone
    have h1 : scanForCards s uid bt now = ⟨false, s.db, [], []⟩ := by
      unfold scanForCards
      rw [hm, hnone]
      simp
    rw [h1]
    exact ⟨rfl, rfl, rfl⟩

/-- C5 witness: the four cases at concrete registries. -/
theorem claim_c5_witness :
    ((scanForCards ⟨[], false⟩ "a" 3 2).newEvents = [(3, "a")] ∧
      (scanForCards ⟨[], false⟩ "a" 3 2).removedEvents = [] ∧
      dbFind (scanForCards ⟨[], false⟩ "a" 3 2).db "a" = some ⟨"a", 3, 2, 2⟩) ∧
    ((scanForCards ⟨[("a", ⟨"a", 3, 1, 1⟩)], false⟩ "a" 3 2).newEvents = [] ∧
      (scanForCards ⟨[("a", ⟨"a", 3, 1, 1⟩)], false⟩ "a" 3 2).removedEvents = []) ∧
    ((scanForCards ⟨[("a", ⟨"a", 3, 1, 1⟩)], true⟩ "a" 0 2).removedEvents = [(3, "a")] ∧
      (scanForCards ⟨[("a", ⟨"a", 3, 1, 1⟩)], true⟩ "a" 0 2).newEvents = []) ∧
    ((scanForCards ⟨[], true⟩ "a" 0 2).newEvents = [] ∧
      (scanForCards ⟨[], true⟩ "a" 0 2).removedEvents = []) := by
  have h1 := (claim_c5 ⟨[], false⟩ "a" 3 2 (by decide)).1 rfl (by decide)
  have h2 := (claim_c5 ⟨[("a", ⟨"a", 3, 1, 1⟩)], false⟩ "a" 3 2 (by decide)).2.1 rfl
    ⟨"a", 3, 1, 1⟩ (by decide)
  have h3 := (claim_c5 ⟨[("a", ⟨"a", 3, 1, 1⟩)], true⟩ "a" 0 2 (by decide)).2.2.1 rfl
    ⟨"a", 3, 1, 1⟩ (by decide)
  have h4 := (claim_c5 ⟨[], true⟩ "a" 0 2 (by decide)).2.2.2 rfl (by decide)
  exact ⟨⟨h1.1, h1.2.1, h1.2.2⟩, ⟨h2.1, h2.2.1⟩, ⟨h3.1, h3.2.1⟩, ⟨h4.1, h4.2.1⟩⟩

/-- C6: in every reachable registry state (under monotone timestamps),
keys are unique (at most one card per UID), and every stored card has
ordered timestamps and a non-empty uid field equal to its key. -/
theorem claim_c6 (t : Nat) (s : RegistryState) (h : Reach t s) :
    (s.db.map Prod.fst).Nodup ∧
    ∀ e ∈ s.db, e.2.firstSeen ≤ e.2.lastSeen ∧ e.2.uid = e.1 ∧ e.1 ≠ "" := by
  obtain ⟨h1, h2⟩ := reachInv t s h
  refine ⟨h1, fun e he => ?_⟩
  obtain ⟨a, b, c, d⟩ := h2 e he
  exact ⟨c, a, b⟩

/-- C6 witness: the invariant at the state reached by one add. -/
theorem claim_c6_witness :
    ((RegistryState.mk (addBuilding [] "a" 7 5).2 false).db.map Prod.fst).Nodup ∧
    ∀ e ∈ (RegistryState.mk (addBuilding [] "a" 7 5).2 false).db,
      e.2.firstSeen ≤ e.2.lastSeen ∧ e.2.uid = e.1 ∧ e.1 ≠ "" :=
  claim_c6 5 ⟨(addBuilding [] "a" 7 5).2, false⟩
    (Reach.add 0 5 ⟨[], false⟩ "a" 7 Reach.init (by omega))

end NFCReg

